import Mathlib

/-!
Verification of the connection/transaction coordination layer of the
`mcp-sqlite-tools` repository: a shallow embedding of the transaction
manager (`transactions` module), the connection pool
(`connection-manager` module), the path validator, and the
multi-statement DDL executor (`sqlite` client), together with theorems
settling the specification claims about them.

The JavaScript `Map` objects keyed by database path are embedded as
association lists with the usual find/set/erase operations; the SQLite
engine's `exec`/`run` calls are embedded by an explicit success flag
(`execOk`) respectively an explicit per-statement outcome function
(`runStmt`), since the engine itself is an external collaborator.
-/

namespace SqliteTools

/-! ### Association-list model of a JavaScript `Map` keyed by strings -/

def mfind {α : Type} : List (String × α) → String → Option α
  | [], _ => none
  | (k, v) :: rest, q => if k = q then some v else mfind rest q

def mset {α : Type} : List (String × α) → String → α → List (String × α)
  | [], q, v => [(q, v)]
  | (k, w) :: rest, q, v =>
      if k = q then (q, v) :: rest else (k, w) :: mset rest q v

def merase {α : Type} : List (String × α) → String → List (String × α)
  | [], _ => []
  | (k, w) :: rest, q => if k = q then rest else (k, w) :: merase rest q

/-- The keys of the map are pairwise distinct (an invariant of every
JavaScript `Map`). -/
def keysNodup {α : Type} (m : List (String × α)) : Prop :=
  (m.map Prod.fst).Nodup

instance {α : Type} (m : List (String × α)) : Decidable (keysNodup m) := by
  unfold keysNodup; infer_instance

/-! ### Transaction manager (`transactions` module)

`TransactionState` and the `active_transactions` map are embedded
directly; `start_time` is an epoch timestamp in milliseconds.  The
`db.exec` calls can fail in the source (they raise, converted by
`convert_sqlite_error`); this is embedded by the `execOk` flag.  The
generated transaction id (`generate_transaction_id`, built from the
clock and a random suffix) is passed in as the `fresh_id` argument. -/

structure TransactionState where
  id : String
  database_path : String
  start_time : Nat
  savepoint_count : Nat
deriving Repr, DecidableEq

abbrev TxMap : Type := List (String × TransactionState)

inductive TxError where
  | noActiveTransaction (path : String)
  | sqliteError (path : String)
deriving Repr, DecidableEq

instance {ε α : Type} [DecidableEq ε] [DecidableEq α] :
    DecidableEq (Except ε α) := fun x y =>
  match x, y with
  | .ok a, .ok b =>
      if h : a = b then .isTrue (by rw [h]) else .isFalse (by simp [h])
  | .error a, .error b =>
      if h : a = b then .isTrue (by rw [h]) else .isFalse (by simp [h])
  | .ok _, .error _ => .isFalse (by simp)
  | .error _, .ok _ => .isFalse (by simp)

/-- Outcome of one transaction-manager call: the returned value or the
raised error, the `active_transactions` map afterwards, and the SQL
text(s) passed to `db.exec` during the call. -/
structure TxStep (α : Type) where
  result : Except TxError α
  txs : TxMap
  sql : List String
deriving Repr, DecidableEq

/-- `begin_transaction` (transactions module, lines 32–79). -/
def begin_transaction (txs : TxMap) (path fresh_id : String) (now : Nat)
    (execOk : Bool) : TxStep String :=
  match mfind txs path with
  | some existing =>
      let savepoint_name := "sp_" ++ toString existing.savepoint_count
      if execOk then
        { result := .ok existing.id,
          txs := mset txs path
            { existing with savepoint_count := existing.savepoint_count + 1 },
          sql := ["SAVEPOINT " ++ savepoint_name] }
      else
        { result := .error (.sqliteError path), txs := txs,
          sql := ["SAVEPOINT " ++ savepoint_name] }
  | none =>
      if execOk then
        { result := .ok fresh_id,
          txs := mset txs path
            { id := fresh_id, database_path := path, start_time := now,
              savepoint_count := 0 },
          sql := ["BEGIN IMMEDIATE"] }
      else
        { result := .error (.sqliteError path), txs := txs,
          sql := ["BEGIN IMMEDIATE"] }

/-- `commit_transaction` (transactions module, lines 84–127); the value
returned on success is `(transaction_id, changes)`. -/
def commit_transaction (txs : TxMap) (path : String) (execOk : Bool) :
    TxStep (String × Nat) :=
  match mfind txs path with
  | none =>
      { result := .error (.noActiveTransaction path), txs := txs, sql := [] }
  | some t =>
      if 0 < t.savepoint_count then
        let savepoint_name := "sp_" ++ toString (t.savepoint_count - 1)
        if execOk then
          { result := .ok (t.id, 0),
            txs := mset txs path
              { t with savepoint_count := t.savepoint_count - 1 },
            sql := ["RELEASE SAVEPOINT " ++ savepoint_name] }
        else
          { result := .error (.sqliteError path), txs := txs,
            sql := ["RELEASE SAVEPOINT " ++ savepoint_name] }
      else
        if execOk then
          { result := .ok (t.id, 0), txs := merase txs path,
            sql := ["COMMIT"] }
        else
          { result := .error (.sqliteError path), txs := txs,
            sql := ["COMMIT"] }

/-- `rollback_transaction` (transactions module, lines 132–174); the
value returned on success is the `transaction_id`. -/
def rollback_transaction (txs : TxMap) (path : String) (execOk : Bool) :
    TxStep String :=
  match mfind txs path with
  | none =>
      { result := .error (.noActiveTransaction path), txs := txs, sql := [] }
  | some t =>
      if 0 < t.savepoint_count then
        let savepoint_name := "sp_" ++ toString (t.savepoint_count - 1)
        if execOk then
          { result := .ok t.id,
            txs := mset txs path
              { t with savepoint_count := t.savepoint_count - 1 },
            sql := ["ROLLBACK TO SAVEPOINT " ++ savepoint_name] }
        else
          { result := .error (.sqliteError path), txs := txs,
            sql := ["ROLLBACK TO SAVEPOINT " ++ savepoint_name] }
      else
        if execOk then
          { result := .ok t.id, txs := merase txs path, sql := ["ROLLBACK"] }
        else
          { result := .error (.sqliteError path), txs := txs,
            sql := ["ROLLBACK"] }

/-- `has_active_transaction` (transactions module, lines 179–183). -/
def has_active_transaction (txs : TxMap) (path : String) : Bool :=
  (mfind txs path).isSome

/-- The loop body of `cleanup_stale_transactions`: iterate over the keys
of the map (in insertion order), look the key up in the live map, and
force a rollback of any transaction started before the cutoff, counting
the rollbacks that succeeded and swallowing errors. -/
def cleanup_stale_go (cutoff : Nat) (execOk : String → Bool) :
    List String → TxMap → Nat → Nat × TxMap
  | [], m, n => (n, m)
  | p :: ps, m, n =>
      match mfind m p with
      | none => cleanup_stale_go cutoff execOk ps m n
      | some t =>
          if t.start_time < cutoff then
            let step := rollback_transaction m p (execOk p)
            match step.result with
            | .ok _ => cleanup_stale_go cutoff execOk ps step.txs (n + 1)
            | .error _ => cleanup_stale_go cutoff execOk ps step.txs n
          else
            cleanup_stale_go cutoff execOk ps m n

/-- `cleanup_stale_transactions` (transactions module, lines 207–228). -/
def cleanup_stale_transactions (txs : TxMap) (max_age_minutes now : Nat)
    (execOk : String → Bool) : Nat × TxMap :=
  cleanup_stale_go (now - max_age_minutes * 60000) execOk
    (txs.map Prod.fst) txs 0

/-! ### Concrete states used by the witnesses -/

def exTxState : TransactionState :=
  { id := "X", database_path := "./t.db", start_time := 5, savepoint_count := 1 }

def exTxStateTop : TransactionState :=
  { id := "X", database_path := "./t.db", start_time := 5, savepoint_count := 0 }

def exTxMap : TxMap := [("./t.db", exTxState)]

def exTxMapTop : TxMap := [("./t.db", exTxStateTop)]

/-- The effect of the stale-transaction sweep on the entry of a single
path: one rollback step if the transaction is stale (removal only at
savepoint depth 0), nothing otherwise. -/
def staleStep (cutoff : Nat) (execOk : String → Bool) (p : String) :
    Option TransactionState → Option TransactionState
  | none => none
  | some t =>
      if t.start_time < cutoff then
        if execOk p then
          (if t.savepoint_count = 0 then none
           else some { t with savepoint_count := t.savepoint_count - 1 })
        else some t
      else some t

/-- Whether the sweep's loop body rolls back (and therefore counts) the
entry of path `p` of map `m`. -/
def staleHit (cutoff : Nat) (execOk : String → Bool) (m : TxMap)
    (p : String) : Bool :=
  match mfind m p with
  | some t => decide (t.start_time < cutoff) && execOk p
  | none => false

/-! ### Connection pool (`connection-manager` module)

`ConnectionMetadata` drops the engine handle itself (external); the
`database.close()` call may throw, embedded by `closeOk`.  Note that the
source's `cleanup_idle_connections` takes no transaction information at
all — the embedding reflects its exact signature plus the clock. -/

structure ConnectionMetadata where
  created_at : Nat
  last_used : Nat
  use_count : Nat
deriving Repr, DecidableEq

abbrev PoolMap : Type := List (String × ConnectionMetadata)

/-- `POOL_CONFIG.idle_timeout_minutes`. -/
def idle_timeout_minutes : Nat := 30

/-- The loop body of `cleanup_idle_connections`: any entry idle since
before the cutoff is closed and removed (the removal and the counting are
skipped when `close()` throws). -/
def cleanup_idle_go (cutoff : Nat) (closeOk : String → Bool) :
    List String → PoolMap → Nat → Nat × PoolMap
  | [], m, n => (n, m)
  | p :: ps, m, n =>
      match mfind m p with
      | none => cleanup_idle_go cutoff closeOk ps m n
      | some meta =>
          if meta.last_used < cutoff then
            if closeOk p then
              cleanup_idle_go cutoff closeOk ps (merase m p) (n + 1)
            else
              cleanup_idle_go cutoff closeOk ps m n
          else
            cleanup_idle_go cutoff closeOk ps m n

/-- `cleanup_idle_connections` (connection-manager module, lines
210–240). -/
def cleanup_idle_connections (pool : PoolMap) (now : Nat)
    (closeOk : String → Bool) : Nat × PoolMap :=
  cleanup_idle_go (now - idle_timeout_minutes * 60000) closeOk
    (pool.map Prod.fst) pool 0

def exPool : PoolMap :=
  [("./t.db", { created_at := 5, last_used := 5, use_count := 1 })]

/-! ### Path validator (`validate_database_path`, connection-manager
module, lines 36–74)

POSIX path semantics of `node:path` (`isAbsolute`, `resolve`,
`relative`) are embedded over lists of path components; the configured
root (`SQLITE_DEFAULT_PATH`) is itself resolved to an absolute path at
configuration load, which the embedding assumes. -/

/-- Split a character list at every occurrence of `sep` (the semantics
of JavaScript `String.prototype.split` with a one-character separator,
and of `String.splitOn`, executable by the kernel). -/
def splitChar (sep : Char) : List Char → List (List Char)
  | [] => [[]]
  | c :: rest =>
      if c = sep then [] :: splitChar sep rest
      else
        match splitChar sep rest with
        | s :: ss => (c :: s) :: ss
        | [] => [[c]]

/-- `String.startsWith`, executable by the kernel. -/
def startsWithStr (p s : String) : Bool := List.isPrefixOf p.data s.data

/-- `Array.prototype.join` / `String.intercalate`, executable by the
kernel. -/
def joinWith (sep : String) : List String → String
  | [] => ""
  | [x] => x
  | x :: rest => x ++ sep ++ joinWith sep rest

/-- `String.prototype.substring(0, n)` / `String.take`, executable by
the kernel. -/
def strTake (s : String) (n : Nat) : String := String.mk (s.data.take n)

def isAbsolutePath (p : String) : Bool := startsWithStr "/" p

def splitComps (p : String) : List String :=
  ((splitChar '/' p.data).map String.mk).filter (fun c => c ≠ "" && c ≠ ".")

/-- Normalisation of the components of an absolute path: `..` pops the
last component (and is dropped at the root), as `path.resolve` does. -/
def normAbs (comps : List String) : List String :=
  comps.foldl (fun acc c => if c = ".." then acc.dropLast else acc ++ [c]) []

/-- `path.resolve(root, p)` for an absolute `root`. -/
def resolvePath (root p : String) : String :=
  if isAbsolutePath p then
    "/" ++ joinWith "/" (normAbs (splitComps p))
  else
    "/" ++ joinWith "/" (normAbs (splitComps root ++ splitComps p))

def dropCommon : List String → List String → List String × List String
  | a :: as, b :: bs => if a = b then dropCommon as bs else (a :: as, b :: bs)
  | as, bs => (as, bs)

/-- `path.relative(f, t)` for absolute `f` and `t`: step up out of the
components of `f` not shared with `t`, then down into the rest of `t`. -/
def relativePath (f t : String) : String :=
  let pair := dropCommon (normAbs (splitComps f)) (normAbs (splitComps t))
  joinWith "/" (pair.1.map (fun _ => "..") ++ pair.2)

structure PathConfig where
  default_path : String
  allow_absolute : Bool
deriving Repr, DecidableEq

inductive PathError where
  | absoluteNotAllowed (path : String)
  | traversal (path : String)
deriving Repr, DecidableEq

/-- `validate_database_path` (connection-manager module, lines 36–74). -/
def validate_database_path (cfg : PathConfig) (path : String) :
    Except PathError String :=
  if isAbsolutePath path && !cfg.allow_absolute then
    .error (.absoluteNotAllowed path)
  else
    let resolved := if isAbsolutePath path then path
                    else resolvePath cfg.default_path path
    if !cfg.allow_absolute then
      let rel := relativePath cfg.default_path resolved
      if startsWithStr ".." rel || isAbsolutePath rel then
        .error (.traversal path)
      else .ok resolved
    else .ok resolved

/-- Modelled from claim C9's words: the upward-traversal check on the
resolved path's relation to the root applies to every relative input,
and only absolute inputs (when enabled) skip the containment check. -/
def validate_database_path_claimed (cfg : PathConfig) (path : String) :
    Except PathError String :=
  if isAbsolutePath path then
    if cfg.allow_absolute then .ok path
    else .error (.absoluteNotAllowed path)
  else
    let resolved := resolvePath cfg.default_path path
    let rel := relativePath cfg.default_path resolved
    if startsWithStr ".." rel then .error (.traversal path) else .ok resolved

/-- The amended behavior: with absolute paths enabled, *no* input — not
even a relative one that resolves above the root — undergoes the
containment check. -/
def validate_database_path_amended (cfg : PathConfig) (path : String) :
    Except PathError String :=
  if cfg.allow_absolute then
    .ok (if isAbsolutePath path then path
         else resolvePath cfg.default_path path)
  else if isAbsolutePath path then .error (.absoluteNotAllowed path)
  else
    let resolved := resolvePath cfg.default_path path
    let rel := relativePath cfg.default_path resolved
    if startsWithStr ".." rel || isAbsolutePath rel then .error (.traversal path)
    else .ok resolved

/-! ### SQL statement parsing (`sqlite` client, lines 561–577)

`parse_sql_statements` splits the input on `';'` FIRST and only then
removes `--` line comments and `/* */` block comments from each fragment
(`stmt.split(';')` followed by the two `replace` calls and `trim`).
All string processing is embedded over `List Char` so the kernel can
evaluate it. -/

/-- The global replacement of the line-comment regex (two dashes and
everything up to but excluding the next newline) by the empty string,
as a two-mode scanner: in comment mode (`true`) characters are dropped
until the newline, which is kept. -/
def stripLineAux : Bool → List Char → List Char
  | true, '\n' :: rest => '\n' :: stripLineAux false rest
  | true, _ :: rest => stripLineAux true rest
  | true, [] => []
  | false, '-' :: '-' :: rest => stripLineAux true rest
  | false, c :: rest => c :: stripLineAux false rest
  | false, [] => []

def strip_line_comments (l : List Char) : List Char := stripLineAux false l

/-- Whether a `*/` close marker occurs in the list (the lazy block
comment regex only matches when one does). -/
def hasCloseMark : List Char → Bool
  | '*' :: '/' :: _ => true
  | _ :: rest => hasCloseMark rest
  | [] => false

/-- The global replacement of the lazily matched block-comment regex by
the empty string, as a two-mode scanner: an open marker followed
somewhere by a close marker enters comment mode (`true`), which drops
characters up to and including the nearest close marker; an unclosed
open marker matches nothing and is kept verbatim. -/
def stripBlockAux : Bool → List Char → List Char
  | true, '*' :: '/' :: rest => stripBlockAux false rest
  | true, _ :: rest => stripBlockAux true rest
  | true, [] => []
  | false, '/' :: '*' :: rest =>
      if hasCloseMark rest then stripBlockAux true rest
      else '/' :: '*' :: rest
  | false, c :: rest => c :: stripBlockAux false rest
  | false, [] => []

def strip_block_comments (l : List Char) : List Char := stripBlockAux false l

/-- JavaScript `String.prototype.trim` over the ASCII whitespace the
inputs contain. -/
def isWsChar (c : Char) : Bool := c = ' ' || c = '\t' || c = '\n' || c = '\r'

def trimChars (l : List Char) : List Char :=
  ((l.dropWhile isWsChar).reverse.dropWhile isWsChar).reverse

abbrev splitSemi : List Char → List (List Char) := splitChar ';'

/-- The cleanup applied to each fragment produced by the split: line
comments out, then block comments, then trim. -/
def clean_fragment (frag : List Char) : List Char :=
  trimChars (strip_block_comments (strip_line_comments frag))

def parse_sql_statements_chars (sql : List Char) : List (List Char) :=
  ((splitSemi sql).map clean_fragment).filter (fun s => !s.isEmpty)

/-- `parse_sql_statements` (sqlite client, lines 561–577). -/
def parse_sql_statements (sql : String) : List String :=
  (parse_sql_statements_chars sql.data).map String.mk

/-- Modelled from claim C8's words: the comments are stripped from the
whole input BEFORE splitting on semicolons, so that a semicolon inside a
comment never terminates a statement. -/
def parse_sql_statements_claimed (sql : String) : List String :=
  (((splitSemi (strip_block_comments (strip_line_comments sql.data))).map
      trimChars).filter (fun s => !s.isEmpty)).map String.mk

/-- Join fragments with `';'` between them (the shape of every input
whose statements are separated by single semicolons). -/
def joinSemi : List (List Char) → List Char
  | [] => []
  | [f] => f
  | f :: rest => f ++ ';' :: joinSemi rest

/-! ### Schema batch executor (`sqlite` client, lines 530–675)

The engine-visible effect of the batch is embedded as a `Db`: the list
of durably applied statements, the statements pending inside the open
transaction, and whether a transaction is open.  `runStmt` gives each
statement's outcome when prepared and run (`none` = the engine raised;
`some n` = success with `n` changes). -/

/-- `is_schema_query` (sqlite client, lines 547–555). -/
def is_schema_query (q : String) : Bool :=
  let n := (trimChars q.data).map Char.toLower
  List.isPrefixOf "create".data n || List.isPrefixOf "drop".data n
    || List.isPrefixOf "alter".data n

structure Db where
  committed : List String
  pending : List String
  in_tx : Bool
deriving Repr, DecidableEq

def Db.applyStmt (db : Db) (s : String) : Db :=
  if db.in_tx then { db with pending := db.pending ++ [s] }
  else { db with committed := db.committed ++ [s] }

def Db.execBegin (db : Db) : Db := { db with in_tx := true }

def Db.execCommit (db : Db) : Db :=
  { committed := db.committed ++ db.pending, pending := [], in_tx := false }

def Db.execRollback (db : Db) : Db := { db with pending := [], in_tx := false }

def applyAll (db : Db) (l : List String) : Db := l.foldl Db.applyStmt db

inductive SchemaError where
  | noStatements
  | nonDDL (count : Nat) (first : String)
  | statementFailed (index total : Nat) (stmt : String)
deriving Repr, DecidableEq

structure SchemaResult where
  statements_executed : Nat
  total_changes : Nat
  statements : List String
deriving Repr, DecidableEq

/-- The statement loop of `execute_schema_statements`: run each
statement, accumulating the executed count and total changes; a failing
statement raises an error carrying its 1-based index, the batch size,
and (the first 200 characters of) its text. -/
def run_batch (runStmt : String → Option Nat) (total : Nat) :
    List String → Nat → Nat → Nat → Db →
    Except SchemaError (Nat × Nat) × Db
  | [], executed, changes, _, db => (.ok (executed, changes), db)
  | s :: rest, executed, changes, idx, db =>
      match runStmt s with
      | some ch =>
          run_batch runStmt total rest (executed + 1) (changes + ch)
            (idx + 1) (db.applyStmt s)
      | none =>
          (.error (.statementFailed (idx + 1) total (strTake s 200)), db)

/-- `execute_schema_statements` (sqlite client, lines 582–675).
`txActive` is `has_active_transaction(database_path)` at entry. -/
def execute_schema_statements (db : Db) (txActive : Bool) (sql : String)
    (runStmt : String → Option Nat) :
    Except SchemaError SchemaResult × Db :=
  let statements := parse_sql_statements sql
  if statements.isEmpty then (.error .noStatements, db)
  else
    match statements.filter (fun s => !is_schema_query s) with
    | bad :: more => (.error (.nonDDL (bad :: more).length (strTake bad 100)), db)
    | [] =>
        let use_transaction := !txActive
        let wrap := use_transaction && decide (1 < statements.length)
        let db1 := if wrap then db.execBegin else db
        match run_batch runStmt statements.length statements 0 0 0 db1 with
        | (.ok (ex, ch), db2) =>
            (.ok { statements_executed := ex, total_changes := ch,
                   statements := statements },
             if wrap then db2.execCommit else db2)
        | (.error e, db2) =>
            (.error e, if wrap then db2.execRollback else db2)

/-! ### Theorems -/

theorem mfind_eq_none_iff {α : Type} (m : List (String × α)) (q : String) :
    mfind m q = none ↔ q ∉ m.map Prod.fst := by
  induction m with
  | nil => simp [mfind]
  | cons hd tl ih =>
      obtain ⟨k, w⟩ := hd
      by_cases h : k = q
      · subst h; simp [mfind]
      · simp [mfind, h, ih, Ne.symm h]

theorem mfind_mset_self {α : Type} (m : List (String × α)) (k : String) (v : α) :
    mfind (mset m k v) k = some v := by
  induction m with
  | nil => simp [mset, mfind]
  | cons hd tl ih =>
      obtain ⟨k', w⟩ := hd
      by_cases h : k' = k
      · simp [mset, mfind, h]
      · simp [mset, mfind, h, ih]

theorem mfind_mset_ne {α : Type} (m : List (String × α)) (k q : String) (v : α)
    (h : k ≠ q) : mfind (mset m k v) q = mfind m q := by
  induction m with
  | nil => simp [mset, mfind, h]
  | cons hd tl ih =>
      obtain ⟨k', w⟩ := hd
      by_cases h1 : k' = k
      · subst h1; simp [mset, mfind, h]
      · by_cases h2 : k' = q
        · simp [mset, mfind, h1, h2, Ne.symm h]
        · simp [mset, mfind, h1, h2, ih]

theorem merase_sublist {α : Type} (m : List (String × α)) (k : String) :
    (merase m k).Sublist m := by
  induction m with
  | nil => simp [merase]
  | cons hd tl ih =>
      obtain ⟨k', w⟩ := hd
      by_cases h : k' = k
      · simp only [merase, if_pos h]
        exact List.sublist_cons_self (k', w) tl
      · simp only [merase, if_neg h]
        exact List.Sublist.cons₂ (k', w) ih

theorem mfind_merase_ne {α : Type} (m : List (String × α)) (k q : String)
    (h : k ≠ q) : mfind (merase m k) q = mfind m q := by
  induction m with
  | nil => simp [merase]
  | cons hd tl ih =>
      obtain ⟨k', w⟩ := hd
      by_cases h1 : k' = k
      · subst h1; simp [merase, mfind, h]
      · by_cases h2 : k' = q
        · simp [merase, mfind, h1, h2, Ne.symm h]
        · simp [merase, mfind, h1, h2, ih]

theorem mfind_merase_self {α : Type} (m : List (String × α)) (k : String)
    (h : keysNodup m) : mfind (merase m k) k = none := by
  induction m with
  | nil => simp [merase, mfind]
  | cons hd tl ih =>
      obtain ⟨k', w⟩ := hd
      unfold keysNodup at h
      simp only [List.map_cons, List.nodup_cons] at h
      by_cases h1 : k' = k
      · subst h1
        simp only [merase, if_pos rfl]
        exact (mfind_eq_none_iff tl k').mpr h.1
      · simp only [merase, if_neg h1, mfind, if_neg h1]
        exact ih h.2

theorem mem_keys_mset {α : Type} (m : List (String × α)) (k q : String) (v : α) :
    q ∈ (mset m k v).map Prod.fst ↔ q = k ∨ q ∈ m.map Prod.fst := by
  induction m with
  | nil => simp [mset]
  | cons hd tl ih =>
      obtain ⟨k', w⟩ := hd
      by_cases h : k' = k
      · subst h
        simp [mset]
      · simp only [mset, if_neg h, List.map_cons, List.mem_cons, ih]
        tauto

theorem keysNodup_mset {α : Type} (m : List (String × α)) (k : String) (v : α)
    (h : keysNodup m) : keysNodup (mset m k v) := by
  induction m with
  | nil => simp [mset, keysNodup]
  | cons hd tl ih =>
      obtain ⟨k', w⟩ := hd
      unfold keysNodup at h ⊢
      simp only [List.map_cons, List.nodup_cons] at h
      by_cases h1 : k' = k
      · subst h1
        simpa [mset, List.nodup_cons] using h
      · simp only [mset, if_neg h1, List.map_cons, List.nodup_cons]
        refine ⟨?_, ih h.2⟩
        intro hmem
        rcases (mem_keys_mset tl k k' v).mp hmem with h2 | h2
        · exact h1 h2
        · exact h.1 h2

theorem keysNodup_merase {α : Type} (m : List (String × α)) (k : String)
    (h : keysNodup m) : keysNodup (merase m k) := by
  unfold keysNodup at h ⊢
  exact h.sublist ((merase_sublist m k).map Prod.fst)

/-! ### Claim theorems about the transaction manager -/

/-- C1: while a `TransactionState` exists for a path, `begin_transaction`
increases its `savepoint_count` by exactly one; `commit_transaction` and
`rollback_transaction` decrease it by exactly one when it is positive and
remove the state entirely when it is zero; and the error paths (a failing
`db.exec`) leave the map unchanged, so no other depth transition is
possible. -/
theorem tx_depth_transitions (txs : TxMap) (path : String)
    (t : TransactionState) (hn : keysNodup txs)
    (h : mfind txs path = some t) (fresh : String) (now : Nat) :
    (mfind (begin_transaction txs path fresh now true).txs path
        = some { t with savepoint_count := t.savepoint_count + 1 })
    ∧ (0 < t.savepoint_count →
        mfind (commit_transaction txs path true).txs path
            = some { t with savepoint_count := t.savepoint_count - 1 }
        ∧ mfind (rollback_transaction txs path true).txs path
            = some { t with savepoint_count := t.savepoint_count - 1 })
    ∧ (t.savepoint_count = 0 →
        mfind (commit_transaction txs path true).txs path = none
        ∧ mfind (rollback_transaction txs path true).txs path = none)
    ∧ (begin_transaction txs path fresh now false).txs = txs
    ∧ (commit_transaction txs path false).txs = txs
    ∧ (rollback_transaction txs path false).txs = txs := by
  refine ⟨?_, ?_, ?_, ?_, ?_, ?_⟩
  · simp only [begin_transaction, h]
    exact mfind_mset_self txs path _
  · intro hc
    constructor
    · simp only [commit_transaction, h, if_pos hc]
      exact mfind_mset_self txs path _
    · simp only [rollback_transaction, h, if_pos hc]
      exact mfind_mset_self txs path _
  · intro hc
    constructor
    · simp only [commit_transaction, h, hc]
      simp only [lt_irrefl, if_false, if_true]
      exact mfind_merase_self txs path hn
    · simp only [rollback_transaction, h, hc]
      simp only [lt_irrefl, if_false, if_true]
      exact mfind_merase_self txs path hn
  · simp [begin_transaction, h]
  · simp only [commit_transaction, h]
    by_cases hc : 0 < t.savepoint_count <;> simp [hc]
  · simp only [rollback_transaction, h]
    by_cases hc : 0 < t.savepoint_count <;> simp [hc]

theorem tx_depth_transitions_witness :
    keysNodup exTxMap ∧ mfind exTxMap "./t.db" = some exTxState
    ∧ (mfind (begin_transaction exTxMap "./t.db" "Y" 9 true).txs "./t.db"
        = some { exTxState with savepoint_count := exTxState.savepoint_count + 1 })
    ∧ (mfind (commit_transaction exTxMap "./t.db" true).txs "./t.db"
        = some { exTxState with savepoint_count := exTxState.savepoint_count - 1 }) :=
  ⟨by decide, by decide,
    (tx_depth_transitions exTxMap "./t.db" exTxState (by decide) (by decide)
      "Y" 9).1,
    ((tx_depth_transitions exTxMap "./t.db" exTxState (by decide) (by decide)
      "Y" 9).2.1 (by decide)).1⟩

/-- C2: a nested `begin_transaction` on a path whose `TransactionState`
already exists issues exactly one `SAVEPOINT sp_<current depth>` command,
increments the depth, and returns the logical id of the already-open
transaction — not the freshly generated id. -/
theorem begin_nested_savepoint (txs : TxMap) (path : String)
    (t : TransactionState) (h : mfind txs path = some t)
    (fresh : String) (now : Nat) :
    begin_transaction txs path fresh now true
      = { result := .ok t.id,
          txs := mset txs path
            { t with savepoint_count := t.savepoint_count + 1 },
          sql := ["SAVEPOINT " ++ ("sp_" ++ toString t.savepoint_count)] } := by
  simp [begin_transaction, h]

theorem begin_nested_savepoint_witness :
    mfind exTxMapTop "./t.db" = some exTxStateTop
    ∧ begin_transaction exTxMapTop "./t.db" "fresh_id" 9 true
        = { result := .ok "X",
            txs := [("./t.db",
              { id := "X", database_path := "./t.db", start_time := 5,
                savepoint_count := 1 })],
            sql := ["SAVEPOINT sp_0"] } :=
  ⟨by decide,
    by
      have h := begin_nested_savepoint exTxMapTop "./t.db" exTxStateTop
        (by decide) "fresh_id" 9
      rw [h]; decide⟩

/-- C6: `commit_transaction` and `rollback_transaction` on a path with no
`TransactionState` fail with the "no active transaction" error, leave the
transaction map unchanged, and — the map being a fixed point — fail
identically on every retry. -/
theorem commit_rollback_without_transaction (txs : TxMap) (path : String)
    (h : mfind txs path = none) (e : Bool) (n : Nat) :
    (fun m => (commit_transaction m path e).txs)^[n] txs = txs
    ∧ (fun m => (rollback_transaction m path e).txs)^[n] txs = txs
    ∧ commit_transaction txs path e
        = { result := .error (.noActiveTransaction path), txs := txs,
            sql := [] }
    ∧ rollback_transaction txs path e
        = { result := .error (.noActiveTransaction path), txs := txs,
            sql := [] } := by
  have hc : commit_transaction txs path e
      = { result := .error (.noActiveTransaction path), txs := txs,
          sql := [] } := by
    simp only [commit_transaction, h]
  have hr : rollback_transaction txs path e
      = { result := .error (.noActiveTransaction path), txs := txs,
          sql := [] } := by
    simp only [rollback_transaction, h]
  refine ⟨?_, ?_, hc, hr⟩
  · exact Function.iterate_fixed (by simp [hc]) n
  · exact Function.iterate_fixed (by simp [hr]) n

theorem commit_rollback_without_transaction_witness :
    mfind ([] : TxMap) "./t.db" = none
    ∧ commit_transaction ([] : TxMap) "./t.db" true
        = { result := .error (.noActiveTransaction "./t.db"), txs := [],
            sql := [] }
    ∧ rollback_transaction ([] : TxMap) "./t.db" true
        = { result := .error (.noActiveTransaction "./t.db"), txs := [],
            sql := [] } :=
  ⟨by decide,
    (commit_rollback_without_transaction [] "./t.db" (by decide) true 3).2.2.1,
    (commit_rollback_without_transaction [] "./t.db" (by decide) true 3).2.2.2⟩

/-- C10: whenever `commit_transaction` succeeds — both when releasing a
savepoint (depth > 0) and when committing the top-level transaction
(depth 0) — the reported `changes` count is the hard-coded 0; it never
reflects the rows modified inside the transaction (the function has no
access to them). -/
theorem commit_changes_always_zero (txs : TxMap) (path : String)
    (t : TransactionState) (h : mfind txs path = some t) :
    (commit_transaction txs path true).result = .ok (t.id, 0) := by
  simp only [commit_transaction, h]
  by_cases hc : 0 < t.savepoint_count <;> simp [hc]

/-! ### Lemmas about `cleanup_stale_transactions` -/

/-- What one `rollback_transaction` call does to the map when a
transaction exists for the path, and the result it returns. -/
theorem rollback_txs_eq (m : TxMap) (p : String) (e : Bool)
    (t : TransactionState) (h : mfind m p = some t) :
    (rollback_transaction m p e).txs
      = (if e then
          (if t.savepoint_count = 0 then merase m p
           else mset m p { t with savepoint_count := t.savepoint_count - 1 })
         else m)
    ∧ (rollback_transaction m p e).result
      = (if e then .ok t.id else .error (.sqliteError p)) := by
  simp only [rollback_transaction, h]
  by_cases hc : 0 < t.savepoint_count
  · have hz : ¬ t.savepoint_count = 0 := by omega
    cases e <;> simp [hc, hz]
  · have hz : t.savepoint_count = 0 := by omega
    cases e <;> simp [hc, hz]

theorem rollback_frame (m : TxMap) (p : String) (e : Bool) (q : String)
    (hq : q ≠ p) :
    mfind (rollback_transaction m p e).txs q = mfind m q := by
  cases hm : mfind m p with
  | none => simp only [rollback_transaction, hm]
  | some t =>
      rw [(rollback_txs_eq m p e t hm).1]
      cases e with
      | false => simp
      | true =>
          by_cases hz : t.savepoint_count = 0
          · simp only [hz, if_true, if_pos rfl]
            exact mfind_merase_ne m p q (Ne.symm hq)
          · simp only [hz, if_true, if_neg hz]
            exact mfind_mset_ne m p q _ (Ne.symm hq)

theorem rollback_nodup (m : TxMap) (p : String) (e : Bool)
    (hn : keysNodup m) : keysNodup (rollback_transaction m p e).txs := by
  cases hm : mfind m p with
  | none => simp only [rollback_transaction, hm]; exact hn
  | some t =>
      rw [(rollback_txs_eq m p e t hm).1]
      cases e with
      | false => simpa using hn
      | true =>
          by_cases hz : t.savepoint_count = 0
          · simp only [hz, if_true, if_pos rfl]
            exact keysNodup_merase m p hn
          · simp only [hz, if_true, if_neg hz]
            exact keysNodup_mset m p _ hn

theorem cleanup_go_frame (cutoff : Nat) (execOk : String → Bool)
    (ps : List String) : ∀ (m : TxMap) (n : Nat) (q : String), q ∉ ps →
    mfind (cleanup_stale_go cutoff execOk ps m n).2 q = mfind m q := by
  induction ps with
  | nil => intro m n q _; rfl
  | cons p ps ih =>
      intro m n q hq
      have hqp : q ≠ p := fun hh => hq (hh ▸ List.mem_cons_self p ps)
      have hqs : q ∉ ps := fun hh => hq (List.mem_cons_of_mem p hh)
      cases hm : mfind m p with
      | none =>
          simp only [cleanup_stale_go, hm]
          exact ih m n q hqs
      | some t =>
          simp only [cleanup_stale_go, hm]
          by_cases hst : t.start_time < cutoff
          · simp only [if_pos hst]
            cases hr : (rollback_transaction m p (execOk p)).result with
            | ok v =>
                simp only [hr]
                rw [ih _ _ q hqs]
                exact rollback_frame m p _ q hqp
            | error err =>
                simp only [hr]
                rw [ih _ _ q hqs]
                exact rollback_frame m p _ q hqp
          · simp only [if_neg hst]
            exact ih m n q hqs

theorem cleanup_go_lookup (cutoff : Nat) (execOk : String → Bool)
    (ps : List String) : ∀ (m : TxMap) (n : Nat) (p : String),
    ps.Nodup → keysNodup m → p ∈ ps →
    mfind (cleanup_stale_go cutoff execOk ps m n).2 p
      = staleStep cutoff execOk p (mfind m p) := by
  induction ps with
  | nil => intro m n p _ _ hp; exact absurd hp (List.not_mem_nil p)
  | cons p0 ps ih =>
      intro m n p hnd hm hp
      have hnd0 : p0 ∉ ps := (List.nodup_cons.mp hnd).1
      have hnds : ps.Nodup := (List.nodup_cons.mp hnd).2
      cases hm0 : mfind m p0 with
      | none =>
          simp only [cleanup_stale_go, hm0]
          rcases List.mem_cons.mp hp with rfl | hps
          · rw [cleanup_go_frame cutoff execOk ps m n p hnd0, hm0]
            rfl
          · exact ih m n p hnds hm hps
      | some t =>
          simp only [cleanup_stale_go, hm0]
          by_cases hst : t.start_time < cutoff
          · simp only [if_pos hst]
            have htxs := (rollback_txs_eq m p0 (execOk p0) t hm0).1
            have hres := (rollback_txs_eq m p0 (execOk p0) t hm0).2
            have hnod1 : keysNodup (rollback_transaction m p0 (execOk p0)).txs :=
              rollback_nodup m p0 (execOk p0) hm
            cases he : execOk p0 with
            | true =>
                rw [he] at htxs hres
                simp only [if_true] at htxs hres
                cases hr : (rollback_transaction m p0 true).result with
                | error err => rw [hr] at hres; exact absurd hres (by simp)
                | ok v =>
                    simp only [he, hr]
                    rcases List.mem_cons.mp hp with rfl | hps
                    · rw [cleanup_go_frame cutoff execOk ps _ _ p hnd0, htxs]
                      by_cases hz : t.savepoint_count = 0
                      · rw [if_pos hz, mfind_merase_self m p hm, hm0]
                        simp [staleStep, hst, he, hz]
                      · rw [if_neg hz, mfind_mset_self, hm0]
                        simp [staleStep, hst, he, hz]
                    · rw [ih _ _ p hnds (he ▸ hnod1) hps]
                      have hpp0 : p ≠ p0 := fun hh => hnd0 (hh ▸ hps)
                      rw [htxs]
                      by_cases hz : t.savepoint_count = 0
                      · rw [if_pos hz, mfind_merase_ne m p0 p (Ne.symm hpp0)]
                      · rw [if_neg hz, mfind_mset_ne m p0 p _ (Ne.symm hpp0)]
            | false =>
                rw [he] at htxs hres
                simp only [if_false, Bool.false_eq_true] at htxs hres
                cases hr : (rollback_transaction m p0 false).result with
                | ok v => rw [hr] at hres; exact absurd hres (by simp)
                | error err =>
                    simp only [he, hr]
                    rcases List.mem_cons.mp hp with rfl | hps
                    · rw [cleanup_go_frame cutoff execOk ps _ _ p hnd0, htxs,
                        hm0]
                      simp [staleStep, hst, he]
                    · rw [htxs]
                      exact ih m n p hnds hm hps
          · simp only [if_neg hst]
            rcases List.mem_cons.mp hp with rfl | hps
            · rw [cleanup_go_frame cutoff execOk ps m n p hnd0, hm0]
              simp [staleStep, hst]
            · exact ih m n p hnds hm hps

theorem cleanup_go_count (cutoff : Nat) (execOk : String → Bool)
    (ps : List String) : ∀ (m : TxMap) (n : Nat),
    ps.Nodup → keysNodup m →
    (cleanup_stale_go cutoff execOk ps m n).1
      = n + ps.countP (staleHit cutoff execOk m) := by
  induction ps with
  | nil => intro m n _ _; simp [cleanup_stale_go]
  | cons p0 ps ih =>
      intro m n hnd hm
      have hnd0 : p0 ∉ ps := (List.nodup_cons.mp hnd).1
      have hnds : ps.Nodup := (List.nodup_cons.mp hnd).2
      cases hm0 : mfind m p0 with
      | none =>
          simp only [cleanup_stale_go, hm0]
          rw [ih m n hnds hm, List.countP_cons]
          simp [staleHit, hm0]
      | some t =>
          simp only [cleanup_stale_go, hm0]
          by_cases hst : t.start_time < cutoff
          · simp only [if_pos hst]
            have htxs := (rollback_txs_eq m p0 (execOk p0) t hm0).1
            have hres := (rollback_txs_eq m p0 (execOk p0) t hm0).2
            have hnod1 : keysNodup (rollback_transaction m p0 (execOk p0)).txs :=
              rollback_nodup m p0 (execOk p0) hm
            have hcong : ∀ (m1 : TxMap),
                (∀ q, q ≠ p0 → mfind m1 q = mfind m q) →
                ps.countP (staleHit cutoff execOk m1)
                  = ps.countP (staleHit cutoff execOk m) := by
              intro m1 hfr
              apply List.countP_congr
              intro q hq
              have hqp0 : q ≠ p0 := fun hh => hnd0 (hh ▸ hq)
              simp [staleHit, hfr q hqp0]
            cases he : execOk p0 with
            | true =>
                rw [he] at htxs hres
                simp only [if_true] at htxs hres
                cases hr : (rollback_transaction m p0 true).result with
                | error err => rw [hr] at hres; exact absurd hres (by simp)
                | ok v =>
                    simp only [he, hr]
                    rw [ih _ _ hnds (he ▸ hnod1)]
                    have hfr : ∀ q, q ≠ p0 →
                        mfind (rollback_transaction m p0 true).txs q
                          = mfind m q := fun q hq =>
                      rollback_frame m p0 true q hq
                    rw [hcong _ hfr, List.countP_cons]
                    simp [staleHit, hm0, hst, he]
                    omega
            | false =>
                rw [he] at htxs hres
                simp only [if_false, Bool.false_eq_true] at htxs hres
                cases hr : (rollback_transaction m p0 false).result with
                | ok v => rw [hr] at hres; exact absurd hres (by simp)
                | error err =>
                    simp only [he, hr]
                    rw [htxs, ih _ _ hnds hm, List.countP_cons]
                    simp [staleHit, hm0, hst, he]
          · simp only [if_neg hst]
            rw [ih m n hnds hm, List.countP_cons]
            simp [staleHit, hm0, hst]

theorem countP_keys_staleHit (cutoff : Nat) (execOk : String → Bool) :
    ∀ (m : TxMap), keysNodup m →
    (m.map Prod.fst).countP (staleHit cutoff execOk m)
      = m.countP (fun e =>
          decide (e.2.start_time < cutoff) && execOk e.1) := by
  intro m
  induction m with
  | nil => intro _; simp
  | cons hd tl ih =>
      obtain ⟨k, v⟩ := hd
      intro hn
      unfold keysNodup at hn
      simp only [List.map_cons, List.nodup_cons] at hn
      simp only [List.map_cons, List.countP_cons]
      have h1 : staleHit cutoff execOk ((k, v) :: tl) k
          = (decide (v.start_time < cutoff) && execOk k) := by
        simp [staleHit, mfind]
      have h2 : (List.map Prod.fst tl).countP
            (staleHit cutoff execOk ((k, v) :: tl))
          = (List.map Prod.fst tl).countP (staleHit cutoff execOk tl) := by
        apply List.countP_congr
        intro q hq
        have hqk : k ≠ q := fun hh => hn.1 (hh ▸ hq)
        simp [staleHit, mfind, hqk]
      rw [h1, h2, ih hn.2]

/-- C7 (amended): `cleanup_stale_transactions(max_age)` applies exactly
one forced `rollback_transaction` step to every `TransactionState` whose
start time is older than `max_age`: the state is removed from the map
only when its savepoint depth is 0; at depth > 0 only the most recent
savepoint is rolled back and the state remains with depth decremented.
The returned count is the number of stale transactions whose rollback
step succeeded, fresh transactions are untouched, and rollback errors do
not propagate (the sweep is total and returns normally). -/
theorem cleanup_stale_characterization (txs : TxMap) (maxAge now : Nat)
    (execOk : String → Bool) (hn : keysNodup txs) :
    (∀ p t, mfind txs p = some t →
      mfind (cleanup_stale_transactions txs maxAge now execOk).2 p
        = staleStep (now - maxAge * 60000) execOk p (some t))
    ∧ (cleanup_stale_transactions txs maxAge now execOk).1
      = txs.countP (fun e =>
          decide (e.2.start_time < now - maxAge * 60000) && execOk e.1) := by
  constructor
  · intro p t hp
    have hmem : p ∈ txs.map Prod.fst := by
      by_contra hnm
      rw [(mfind_eq_none_iff txs p).mpr hnm] at hp
      exact Option.noConfusion hp
    rw [cleanup_stale_transactions,
      cleanup_go_lookup (now - maxAge * 60000) execOk (txs.map Prod.fst)
        txs 0 p hn hn hmem, hp]
  · rw [cleanup_stale_transactions,
      cleanup_go_count (now - maxAge * 60000) execOk (txs.map Prod.fst)
        txs 0 hn hn,
      countP_keys_staleHit (now - maxAge * 60000) execOk txs hn]
    omega

theorem cleanup_stale_characterization_witness :
    keysNodup exTxMap
    ∧ mfind (cleanup_stale_transactions exTxMap 30 1800006
          (fun _ => true)).2 "./t.db"
        = staleStep 6 (fun _ => true) "./t.db" (some exTxState) :=
  ⟨by decide,
    (cleanup_stale_characterization exTxMap 30 1800006 (fun _ => true)
      (by decide)).1 "./t.db" exTxState (by decide)⟩

/-- C7 counterexample: a transaction started at time 5 with savepoint
depth 1 is stale at time 1800006 with a 30-minute max age; the sweep
counts it as cleaned, yet its `TransactionState` is still in the map
(with depth 0) rather than removed. -/
theorem cleanup_stale_not_removed :
    (cleanup_stale_transactions exTxMap 30 1800006 (fun _ => true)).1 = 1
    ∧ mfind (cleanup_stale_transactions exTxMap 30 1800006
          (fun _ => true)).2 "./t.db"
        = some { exTxState with savepoint_count := 0 }
    ∧ ¬ (mfind (cleanup_stale_transactions exTxMap 30 1800006
          (fun _ => true)).2 "./t.db" = none) := by
  refine ⟨by decide, by decide, by decide⟩

theorem commit_changes_always_zero_witness :
    (mfind exTxMap "./t.db" = some exTxState
      ∧ (commit_transaction exTxMap "./t.db" true).result = .ok ("X", 0))
    ∧ (mfind exTxMapTop "./t.db" = some exTxStateTop
      ∧ (commit_transaction exTxMapTop "./t.db" true).result = .ok ("X", 0)) :=
  ⟨⟨by decide,
    commit_changes_always_zero exTxMap "./t.db" exTxState (by decide)⟩,
   ⟨by decide,
    commit_changes_always_zero exTxMapTop "./t.db" exTxStateTop (by decide)⟩⟩

/-- C5: the idle-eviction sweep evicts a pool entry that has been idle
past the timeout even though the very same path has an open
`TransactionState` (`has_active_transaction` is `true`); the source's
`cleanup_idle_connections` consults no transaction state whatsoever, so
the eviction policy claimed by the spec is not implemented. -/
theorem idle_eviction_ignores_transactions :
    has_active_transaction exTxMap "./t.db" = true
    ∧ cleanup_idle_connections exPool 1800006 (fun _ => true) = (1, []) := by
  refine ⟨by decide, by decide⟩

/-- C9 counterexample: with the root `/data` and absolute paths enabled,
the relative input `../x` resolves to `/x`, whose relation to the root
(`../x`) is an upward traversal; the claim demands a `PathSecurityError`,
but the source accepts it because the containment check is skipped
whenever absolute paths are enabled. -/
theorem validate_path_traversal_accepted :
    validate_database_path { default_path := "/data", allow_absolute := true }
        "../x" = .ok "/x"
    ∧ startsWithStr ".." (relativePath "/data" "/x") = true
    ∧ validate_database_path_claimed
        { default_path := "/data", allow_absolute := true } "../x"
        = .error (.traversal "../x") := by
  refine ⟨by decide, by decide, by decide⟩

/-- C9 (amended): `validate_database_path` rejects absolute inputs with a
security error when absolute paths are disabled; when they are disabled
it resolves relative inputs against the root and rejects those whose
relation to the root climbs upward; when absolute paths are enabled every
input is accepted without any containment check (absolute ones verbatim,
relative ones resolved against the root).  It is a pure function of the
configuration and the input. -/
theorem validate_path_characterization (cfg : PathConfig) (path : String) :
    validate_database_path cfg path
      = validate_database_path_amended cfg path := by
  unfold validate_database_path validate_database_path_amended
  cases ha : cfg.allow_absolute <;> cases hp : isAbsolutePath path <;> simp

/-! ### Lemmas about splitting and the schema batch -/

theorem splitChar_no_sep (sep : Char) (f : List Char) (h : sep ∉ f) :
    splitChar sep f = [f] := by
  induction f with
  | nil => rfl
  | cons c f ih =>
      have hc : ¬ c = sep := fun hh => h (hh ▸ List.mem_cons_self c f)
      have hf : sep ∉ f := fun hh => h (List.mem_cons_of_mem c hh)
      simp only [splitChar, if_neg hc, ih hf]

theorem splitChar_append (sep : Char) (f t : List Char) (h : sep ∉ f) :
    splitChar sep (f ++ sep :: t) = f :: splitChar sep t := by
  induction f with
  | nil => simp [splitChar]
  | cons c f ih =>
      have hc : ¬ c = sep := fun hh => h (hh ▸ List.mem_cons_self c f)
      have hf : sep ∉ f := fun hh => h (List.mem_cons_of_mem c hh)
      simp only [List.cons_append, splitChar, if_neg hc, List.append_eq]
      rw [ih hf]

theorem splitSemi_joinSemi (fs : List (List Char)) (hne : fs ≠ [])
    (hf : ∀ f ∈ fs, ';' ∉ f) : splitChar ';' (joinSemi fs) = fs := by
  induction fs with
  | nil => exact absurd rfl hne
  | cons f fs ih =>
      cases fs with
      | nil =>
          exact splitChar_no_sep ';' f (hf f (List.mem_cons_self f []))
      | cons g t =>
          have h1 : joinSemi (f :: g :: t) = f ++ ';' :: joinSemi (g :: t) :=
            rfl
          rw [h1, splitChar_append ';' f (joinSemi (g :: t))
              (hf f (List.mem_cons_self f (g :: t))),
            ih (by simp) (fun q hq => hf q (List.mem_cons_of_mem f hq))]

/-- C8 (amended): `parse_sql_statements` splits the input on every
semicolon first, and only then strips `--` line comments and `/* */`
block comments within each fragment, trims it, and discards empty
fragments — so for an input assembled from semicolon-free fragments the
batch is exactly the cleaned non-empty fragments in their original
order, while a semicolon inside a comment does terminate a statement. -/
theorem parse_statements_of_fragments (fs : List (List Char))
    (hne : fs ≠ []) (hf : ∀ f ∈ fs, ';' ∉ f) :
    parse_sql_statements_chars (joinSemi fs)
      = (fs.map clean_fragment).filter (fun s => !s.isEmpty) := by
  unfold parse_sql_statements_chars splitSemi
  rw [splitSemi_joinSemi fs hne hf]

theorem parse_statements_of_fragments_witness :
    ((["ca".data, " db ".data] : List (List Char)) ≠ [])
    ∧ (∀ f ∈ (["ca".data, " db ".data] : List (List Char)), ';' ∉ f)
    ∧ parse_sql_statements_chars (joinSemi ["ca".data, " db ".data])
        = ((["ca".data, " db ".data] : List (List Char)).map
            clean_fragment).filter (fun s => !s.isEmpty) :=
  ⟨by decide, by decide,
    parse_statements_of_fragments ["ca".data, " db ".data] (by decide)
      (by decide)⟩

/-- C8 counterexample: in `a--x;b` the semicolon lies inside a `--` line
comment, yet the source splits the input there, producing the two
statements `a` and `b`; stripping comments *before* splitting — the
claimed behavior — would instead produce the single statement `a`. -/
theorem parse_splits_inside_comment :
    parse_sql_statements "a--x;b" = ["a", "b"]
    ∧ parse_sql_statements_claimed "a--x;b" = ["a"]
    ∧ parse_sql_statements "a--x;b" ≠ parse_sql_statements_claimed "a--x;b" := by
  refine ⟨by decide, by decide, by decide⟩

/-- C4: a schema batch containing any statement that does not classify
as DDL is rejected wholesale before anything executes: the validation
error reports the count of offending statements and (the first 100
characters of) the first one, and the database — including any caller
transaction — is returned exactly as it was. -/
theorem schema_batch_rejects_non_ddl (db : Db) (txActive : Bool)
    (sql : String) (runStmt : String → Option Nat) (bad : String)
    (more : List String)
    (hbad : (parse_sql_statements sql).filter (fun s => !is_schema_query s)
      = bad :: more) :
    execute_schema_statements db txActive sql runStmt
      = (.error (.nonDDL (bad :: more).length (strTake bad 100)), db) := by
  have hne : (parse_sql_statements sql).isEmpty = false := by
    rcases hp : parse_sql_statements sql with _ | ⟨s, ss⟩
    · rw [hp] at hbad; simp at hbad
    · simp
  simp only [execute_schema_statements, hne, hbad, Bool.false_eq_true,
    if_false]

theorem schema_batch_rejects_non_ddl_witness :
    (parse_sql_statements "create a;select b").filter
        (fun s => !is_schema_query s) = ["select b"]
    ∧ execute_schema_statements (⟨[], [], false⟩ : Db) false
          "create a;select b" (fun _ => some 0)
        = (.error (.nonDDL 1 "select b"), (⟨[], [], false⟩ : Db)) :=
  ⟨by decide,
    by
      have h := schema_batch_rejects_non_ddl (⟨[], [], false⟩ : Db) false
        "create a;select b" (fun _ => some 0) "select b" [] (by decide)
      rw [h]; decide⟩

theorem run_batch_fail (runStmt : String → Option Nat) (total : Nat)
    (pre : List String) (s : String) (rest : List String)
    (hpre : ∀ p ∈ pre, (runStmt p).isSome) (hs : runStmt s = none) :
    ∀ (executed changes idx : Nat) (db : Db),
    run_batch runStmt total (pre ++ s :: rest) executed changes idx db
      = (.error (.statementFailed (idx + pre.length + 1) total
          (strTake s 200)), applyAll db pre) := by
  induction pre with
  | nil =>
      intro executed changes idx db
      simp [run_batch, hs, applyAll]
  | cons p pre ih =>
      intro executed changes idx db
      obtain ⟨c, hc⟩ := Option.isSome_iff_exists.mp
        (hpre p (List.mem_cons_self p pre))
      have hpre2 : ∀ q ∈ pre, (runStmt q).isSome := fun q hq =>
        hpre q (List.mem_cons_of_mem p hq)
      simp only [List.cons_append, run_batch, hc, List.append_eq]
      rw [ih hpre2 (executed + 1) (changes + c) (idx + 1) (db.applyStmt p)]
      have harith : idx + 1 + pre.length + 1 = idx + (pre.length + 1) + 1 := by
        omega
      rw [harith]
      rfl

theorem applyAll_in_tx (l : List String) : ∀ (db : Db), db.in_tx = true →
    (applyAll db l).committed = db.committed
    ∧ (applyAll db l).in_tx = true := by
  induction l with
  | nil => intro db h; exact ⟨rfl, h⟩
  | cons s l ih =>
      intro db h
      have h1 : (db.applyStmt s).in_tx = true := by simp [Db.applyStmt, h]
      have h2 : (db.applyStmt s).committed = db.committed := by
        simp [Db.applyStmt, h]
      obtain ⟨ha, hb⟩ := ih (db.applyStmt s) h1
      exact ⟨h2 ▸ ha, hb⟩

/-- Unfolding of `execute_schema_statements` once the batch is known to
be non-empty and to pass the DDL validation. -/
theorem execute_schema_main (db : Db) (txActive : Bool) (sql : String)
    (runStmt : String → Option Nat) (stmts : List String)
    (hstmts : parse_sql_statements sql = stmts) (hne : stmts.isEmpty = false)
    (hflt : stmts.filter (fun q => !is_schema_query q) = []) :
    execute_schema_statements db txActive sql runStmt
      = (let wrap := !txActive && decide (1 < stmts.length)
         let db1 := if wrap then db.execBegin else db
         match run_batch runStmt stmts.length stmts 0 0 0 db1 with
         | (.ok (ex, ch), db2) =>
             (.ok { statements_executed := ex, total_changes := ch,
                    statements := stmts },
              if wrap then db2.execCommit else db2)
         | (.error e, db2) =>
             (.error e, if wrap then db2.execRollback else db2)) := by
  simp only [execute_schema_statements, hstmts, hne, hflt,
    Bool.false_eq_true, if_false]

/-- C3: when a statement of a validated schema batch fails mid-execution
with no caller transaction open, the executor's own ad-hoc transaction is
rolled back so that the database is returned exactly as it was (no
statement of the batch persists), and the error carries the 1-based
index of the failing statement; when a caller transaction is open, the
same error propagates while the caller's transaction is left open and
nothing is durably committed by the executor. -/
theorem schema_batch_failure_atomicity (sql : String)
    (runStmt : String → Option Nat) (pre : List String) (s : String)
    (rest : List String)
    (hstmts : parse_sql_statements sql = pre ++ s :: rest)
    (hddl : (parse_sql_statements sql).filter (fun q => !is_schema_query q)
      = [])
    (hpre : ∀ p ∈ pre, (runStmt p).isSome)
    (hs : runStmt s = none) :
    (∀ db : Db, db.in_tx = false → db.pending = [] →
      execute_schema_statements db false sql runStmt
        = (.error (.statementFailed (pre.length + 1)
            (pre ++ s :: rest).length (strTake s 200)), db))
    ∧ (∀ db : Db, db.in_tx = true →
      (execute_schema_statements db true sql runStmt).1
        = .error (.statementFailed (pre.length + 1)
            (pre ++ s :: rest).length (strTake s 200))
      ∧ (execute_schema_statements db true sql runStmt).2.committed
          = db.committed
      ∧ (execute_schema_statements db true sql runStmt).2.in_tx = true) := by
  have hne : (pre ++ s :: rest).isEmpty = false := by
    cases pre <;> rfl
  have hflt : (pre ++ s :: rest).filter (fun q => !is_schema_query q) = [] := by
    rw [hstmts] at hddl; exact hddl
  have hrun := run_batch_fail runStmt (pre ++ s :: rest).length pre s rest
    hpre hs
  constructor
  · intro db hin hpend
    obtain ⟨dc, dp, dt⟩ := db
    have hdt : dt = false := hin
    have hdp : dp = [] := hpend
    subst hdt
    subst hdp
    rw [execute_schema_main _ false sql runStmt (pre ++ s :: rest) hstmts
      hne hflt]
    by_cases hlen : 1 < (pre ++ s :: rest).length
    · have hd : decide (1 < (pre ++ s :: rest).length) = true := by
        simpa using hlen
      simp only [Bool.not_false, Bool.true_and, hd, if_true]
      rw [hrun 0 0 0 (Db.execBegin ⟨dc, [], false⟩)]
      have hfin : (applyAll (Db.execBegin ⟨dc, [], false⟩) pre).execRollback
          = (⟨dc, [], false⟩ : Db) := by
        obtain ⟨hcom, htx⟩ :=
          applyAll_in_tx pre (Db.execBegin ⟨dc, [], false⟩) rfl
        simp only [Db.execRollback]
        rw [hcom]
        rfl
      simp only [hfin]
      have hz : 0 + pre.length + 1 = pre.length + 1 := by omega
      rw [hz]
    · have hpre0 : pre = [] := by
        have := List.length_append pre (s :: rest)
        simp only [List.length_cons] at this
        have h0 : pre.length = 0 := by omega
        exact List.length_eq_zero.mp h0
      have hrest0 : rest = [] := by
        have := List.length_append pre (s :: rest)
        simp only [List.length_cons] at this
        have h0 : rest.length = 0 := by omega
        exact List.length_eq_zero.mp h0
      subst hpre0
      subst hrest0
      simp [run_batch, hs]
  · intro db hin
    rw [execute_schema_main db true sql runStmt (pre ++ s :: rest) hstmts
      hne hflt]
    have hrw := hrun 0 0 0 db
    obtain ⟨hcom, htx⟩ := applyAll_in_tx pre db hin
    simp only [Bool.not_true, Bool.false_and, Bool.false_eq_true, if_false,
      hrw]
    refine ⟨by simp, hcom, htx⟩

theorem schema_batch_failure_atomicity_witness :
    parse_sql_statements "create a;drop b" = ["create a"] ++ ["drop b"]
    ∧ (parse_sql_statements "create a;drop b").filter
        (fun q => !is_schema_query q) = []
    ∧ ((fun q => if q = "create a" then some 1 else none) "drop b"
        = (none : Option Nat))
    ∧ execute_schema_statements (⟨[], [], false⟩ : Db) false
          "create a;drop b"
          (fun q => if q = "create a" then some 1 else none)
        = (.error (.statementFailed 2 2 "drop b"), (⟨[], [], false⟩ : Db)) :=
  ⟨by decide, by decide, by decide,
    by
      have h := (schema_batch_failure_atomicity "create a;drop b"
        (fun q => if q = "create a" then some 1 else none)
        ["create a"] "drop b" [] (by decide) (by decide) (by decide)
        (by decide)).1 (⟨[], [], false⟩ : Db) rfl rfl
      rw [h]; decide⟩

end SqliteTools
